import Mathlib

/-!
Shallow embedding of `src/reconciliation.py` (ACH Invoice Processor).

The program reconciles supplier invoice rows against a manually entered ACH
payment: it parses the entered amount, filters rows by payment date, checks
the 2-decimal-rounded sum of `Extended Amount` against the entered amount,
extracts consultant fields from each `Line Item Description` with a regular
expression, derives `FMS Week Ending` (= `Vector Week Ending` + 2 days),
sorts by `Vector Week Ending`, and emits a worksheet with a summary block,
a header row, blank separator rows between week-ending groups, and
auto-sized column widths.

Numeric amounts are modelled as exact rationals (the Python code uses
floats; the decimal values the program manipulates are represented exactly),
dates as year/month/day records, missing values as `Option`, and Python
exceptions as an explicit `Except` error channel.
-/

namespace Reconciliation

/-! ### Python-style character and string helpers -/

/-- Whitespace recognised by Python's `str.strip()` / `str.split()`
(ASCII range). -/
def pyIsSpace (c : Char) : Bool :=
  c = ' ' || c = '\t' || c = '\n' || c = '\r' || c = '\x0b' || c = '\x0c'

/-- `str.split()` with no separator: split on runs of whitespace,
discarding empty pieces.  Auxiliary: `acc` holds the current token
(reversed). -/
def pySplitAux : List Char → List Char → List (List Char)
  | [], acc => if acc.isEmpty then [] else [acc.reverse]
  | c :: cs, acc =>
    if pyIsSpace c then
      if acc.isEmpty then pySplitAux cs [] else acc.reverse :: pySplitAux cs []
    else pySplitAux cs (c :: acc)

/-- Python `description.strip().split()` (the `strip` is subsumed by
`split()` with no argument). -/
def pySplit (l : List Char) : List (List Char) := pySplitAux l []

/-! ### The line-item regular expression

`re.match(r"(.+?) \((S\d+)\)\[C\]:(\d{4}-\d{2}-\d{2}):(\d{4}-\d{2}-\d{2})", s)`

`re.match` anchors at the start of the string only (a match may be a proper
initial segment of the input).  Group 1 is lazy: the shortest non-empty
newline-free initial segment after which the rest of the pattern matches. -/

/-- Maximal run of decimal digits at the head of the list (the greedy
`\d+`), together with the remaining characters. -/
def takeDigits : List Char → List Char × List Char
  | [] => ([], [])
  | c :: cs =>
    if c.isDigit then
      let p := takeDigits cs
      (c :: p.1, p.2)
    else ([], c :: cs)

/-- Match `\d{4}-\d{2}-\d{2}` exactly: on success return the ten matched
characters and the rest of the input. -/
def matchDate : List Char → Option (List Char × List Char)
  | a :: b :: c :: d :: h1 :: e :: f :: h2 :: g :: k :: rest =>
    if a.isDigit && b.isDigit && c.isDigit && d.isDigit && h1 = '-' &&
       e.isDigit && f.isDigit && h2 = '-' && g.isDigit && k.isDigit then
      some ([a, b, c, d, h1, e, f, h2, g, k], rest)
    else none
  | _ => none

/-- Whether a character list has exactly the shape `\d{4}-\d{2}-\d{2}`
(used to state the parser theorems). -/
def dateShape : List Char → Bool
  | [a, b, c, d, h1, e, f, h2, g, k] =>
    a.isDigit && b.isDigit && c.isDigit && d.isDigit && h1 = '-' &&
      e.isDigit && f.isDigit && h2 = '-' && g.isDigit && k.isDigit
  | _ => false

/-- Match `(date):(date)` — group 3, the separating colon, group 4;
input after the second date is ignored (`re.match` does not require the
match to reach the end of the string). -/
def matchDates (rest2 : List Char) : Option (List Char × List Char) :=
  match matchDate rest2 with
  | some (dd1, rest3) =>
    match rest3 with
    | c :: rest4 =>
      if c = ':' then
        match matchDate rest4 with
        | some (dd2, _) => some (dd1, dd2)
        | none => none
      else none
    | [] => none
  | none => none

/-- Match `S\d+)\[C\]:(date):(date)` given the input after the literal
`(S`: the greedy digit run, the literal `)[C]:` and the two dates. -/
def matchAfterNameBody (rest : List Char) :
    Option (List Char × List Char × List Char) :=
  if (takeDigits rest).1.isEmpty then none
  else
    match (takeDigits rest).2 with
    | c1 :: c2 :: c3 :: c4 :: c5 :: rest2 =>
      if c1 = ')' ∧ c2 = '[' ∧ c3 = 'C' ∧ c4 = ']' ∧ c5 = ':' then
        match matchDates rest2 with
        | some (dd1, dd2) => some ('S' :: (takeDigits rest).1, dd1, dd2)
        | none => none
      else none
    | _ => none

/-- Match the part of the pattern after group 1:
` \((S\d+)\)\[C\]:(date):(date)`.  Returns (group 2, group 3, group 4). -/
def matchAfterName : List Char → Option (List Char × List Char × List Char)
  | a :: b :: s :: rest =>
    if a = ' ' ∧ b = '(' ∧ s = 'S' then matchAfterNameBody rest else none
  | _ => none

/-- Scan for the lazy group 1: try the shortest name first; a name may not
contain a newline (`.` does not match `\n`).  `acc` holds the name read so
far, reversed.  Returns (group 1, group 2, group 3, group 4). -/
def reMatchAux : List Char → List Char →
    Option (List Char × List Char × List Char × List Char)
  | _, [] => none
  | acc, c :: cs =>
    if c = '\n' then none
    else
      match matchAfterName cs with
      | some (cid, d1, d2) => some ((c :: acc).reverse, cid, d1, d2)
      | none => reMatchAux (c :: acc) cs

/-- The anchored match of the full pattern against `s` (groups 1–4). -/
def reMatch (s : List Char) :
    Option (List Char × List Char × List Char × List Char) :=
  reMatchAux [] s

/-- A description assembled from its components:
`<name> (S<digits>)[C]:<d1>:<d2><tail>` (used to state the parser
theorems). -/
def descText (name digits d1 d2 tail : List Char) : List Char :=
  name ++ ' ' :: '(' :: 'S' ::
    (digits ++ ')' :: '[' :: 'C' :: ']' :: ':' ::
      (d1 ++ ':' :: (d2 ++ tail)))

/-! ### Exceptions and the parsed-description record -/

instance {ε α : Type} [DecidableEq ε] [DecidableEq α] :
    DecidableEq (Except ε α) := fun x y =>
  match x, y with
  | .ok a, .ok b =>
    if h : a = b then isTrue (by rw [h]) else isFalse (by simp [h])
  | .error e, .error f =>
    if h : e = f then isTrue (by rw [h]) else isFalse (by simp [h])
  | .ok _, .error _ => isFalse (by simp)
  | .error _, .ok _ => isFalse (by simp)

/-- Python exceptions that the reconciliation run can raise, by class. -/
inductive PyExc where
  | valueError (msg : String)
  | indexError (msg : String)
  deriving DecidableEq, Repr

/-- The message carried by an exception (`str(e)`). -/
def PyExc.msg : PyExc → String
  | .valueError m => m
  | .indexError m => m

/-- The four fields extracted from a matching line-item description. -/
structure Parsed where
  firstName : String
  lastName : String
  candidateId : String
  vectorWeekEnding : String
  deriving DecidableEq, Repr

/-- `parse_line_item(description)`: on a regex match, split the name on
whitespace; the first token is the first name and the remaining tokens,
joined by single spaces, the last name; group 2 (`S` + digits) is the
candidate id and group 4 (the second date) the vector week ending.  On no
match all four fields are `None` (modelled `Option.none`).  Indexing
`full_name[0]` raises `IndexError` when the matched name contains no
non-whitespace character. -/
def parse_line_item (description : String) : Except PyExc (Option Parsed) :=
  match reMatch description.data with
  | none => .ok none
  | some (name, cid, _, d2) =>
    match pySplit name with
    | [] => .error (.indexError "list index out of range")
    | t :: ts =>
      .ok (some
        { firstName := String.mk t
          lastName := String.intercalate " " (ts.map String.mk)
          candidateId := String.mk cid
          vectorWeekEnding := String.mk d2 })

/-! ### Calendar dates

`pd.to_datetime(..., errors='coerce')` applied to the `YYYY-MM-DD` strings
produced by the regex (or to `None`) yields the corresponding calendar date,
or a null (`NaT`) when the string is not a valid calendar date.
`timedelta(days=2)` is calendar-day addition and `strftime('%Y-%m-%d')`
formats back with zero padding. -/

/-- A Gregorian calendar date. -/
structure Date where
  year : Nat
  month : Nat
  day : Nat
  deriving DecidableEq, Repr

/-- Gregorian leap-year rule. -/
def isLeap (y : Nat) : Bool :=
  (y % 4 = 0 && y % 100 ≠ 0) || y % 400 = 0

/-- Number of days in a month. -/
def daysInMonth (y m : Nat) : Nat :=
  if m = 2 then (if isLeap y then 29 else 28)
  else if m = 4 || m = 6 || m = 9 || m = 11 then 30
  else 31

/-- A valid calendar date. -/
def validDate (d : Date) : Bool :=
  1 ≤ d.month && d.month ≤ 12 && 1 ≤ d.day && d.day ≤ daysInMonth d.year d.month

/-- The next calendar day. -/
def dateSucc (d : Date) : Date :=
  if d.day < daysInMonth d.year d.month then ⟨d.year, d.month, d.day + 1⟩
  else if d.month < 12 then ⟨d.year, d.month + 1, 1⟩
  else ⟨d.year + 1, 1, 1⟩

/-- The decimal digit character for `n % 10`. -/
def digitChar (n : Nat) : Char :=
  if n % 10 = 0 then '0' else if n % 10 = 1 then '1'
  else if n % 10 = 2 then '2' else if n % 10 = 3 then '3'
  else if n % 10 = 4 then '4' else if n % 10 = 5 then '5'
  else if n % 10 = 6 then '6' else if n % 10 = 7 then '7'
  else if n % 10 = 8 then '8' else '9'

/-- The value of a decimal digit character. -/
def charToDigit (c : Char) : Nat := c.toNat - 48

/-- Two-digit zero-padded rendering (`%m`, `%d`). -/
def pad2 (n : Nat) : List Char := [digitChar (n / 10), digitChar n]

/-- Four-digit zero-padded rendering (`%Y`, for years below 10000). -/
def pad4 (n : Nat) : List Char :=
  [digitChar (n / 1000), digitChar (n / 100), digitChar (n / 10), digitChar n]

/-- `strftime('%Y-%m-%d')`. -/
def fmtDate (d : Date) : String :=
  String.mk (pad4 d.year ++ '-' :: pad2 d.month ++ '-' :: pad2 d.day)

/-- Parse a `YYYY-MM-DD` string into a valid calendar date
(`pd.to_datetime(..., errors='coerce')` on the regex-shaped strings that
reach it: an invalid calendar combination coerces to null). -/
def parseDateYMD (s : String) : Option Date :=
  match s.data with
  | [a, b, c, d, h1, e, f, h2, g, k] =>
    if a.isDigit && b.isDigit && c.isDigit && d.isDigit && h1 = '-' &&
       e.isDigit && f.isDigit && h2 = '-' && g.isDigit && k.isDigit then
      let dt : Date :=
        ⟨charToDigit a * 1000 + charToDigit b * 100 + charToDigit c * 10 +
           charToDigit d,
         charToDigit e * 10 + charToDigit f,
         charToDigit g * 10 + charToDigit k⟩
      if validDate dt then some dt else none
    else none
  | _ => none

/-- Lines 61–62: `pd.to_datetime(vector, errors='coerce') +
timedelta(days=2)`, then `strftime('%Y-%m-%d')`.  A null or unparseable
vector week ending propagates to a null FMS week ending; otherwise the
result is the date two calendar days later, formatted `YYYY-MM-DD`. -/
def deriveFmsWeekEnding : Option String → Option String
  | none => none
  | some s =>
    match parseDateYMD s with
    | none => none
    | some d => some (fmtDate (dateSucc (dateSucc d)))

/-! ### Python `float()` on strings

`float(ach_amount)` accepts optional surrounding whitespace, an optional
sign, then either a decimal literal (digits with single underscores between
digits, an optional fractional part, an optional exponent) or one of the
special spellings `inf`, `infinity`, `nan` (case-insensitive).  On any
other input it raises `ValueError`.  The numeric value is modelled as an
exact rational. -/

/-- A Python float value: finite (exact rational model), infinite, or NaN. -/
inductive PyFloat where
  | finite (q : ℚ)
  | inf (neg : Bool)
  | nan
  deriving DecidableEq, Repr

/-- Maximal run of digits possibly separated by single underscores
(each underscore must sit between two digits): returns the digits read and
the rest of the input. -/
def digitsU : List Char → List Char × List Char
  | [] => ([], [])
  | c :: '_' :: d :: rest =>
    if c.isDigit then
      if d.isDigit then
        let p := digitsU (d :: rest)
        (c :: p.1, p.2)
      else ([c], '_' :: d :: rest)
    else ([], c :: '_' :: d :: rest)
  | c :: cs =>
    if c.isDigit then
      let p := digitsU cs
      (c :: p.1, p.2)
    else ([], c :: cs)

/-- Numeric value of a digit run. -/
def digitsVal (l : List Char) : Nat :=
  l.foldl (fun a c => a * 10 + charToDigit c) 0

/-- ASCII lowercase. -/
def lowerChar (c : Char) : Char :=
  if 'A' ≤ c && c ≤ 'Z' then Char.ofNat (c.toNat + 32) else c

/-- Parse the optional exponent part `[eE][+-]?digits`; returns the
exponent and the rest (the whole input and exponent 0 when no exponent is
present; `none` when an `e` is present but malformed). -/
def parseExp : List Char → Option (Int × List Char)
  | c :: cs =>
    if c = 'e' || c = 'E' then
      let signAndRest : Bool × List Char :=
        match cs with
        | '+' :: r => (false, r)
        | '-' :: r => (true, r)
        | r => (false, r)
      let p := digitsU signAndRest.2
      if p.1.isEmpty then none
      else some (if signAndRest.1 then -(digitsVal p.1 : Int)
                 else (digitsVal p.1 : Int), p.2)
    else some (0, c :: cs)
  | [] => some (0, [])

/-- Negation of a rational, computed on the numerator (the core `Rat`
arithmetic operations are irreducible; `mkRat` and the projections are
used throughout so that every definition evaluates). -/
def ratNeg (q : ℚ) : ℚ := mkRat (-q.num) q.den

/-- Addition of rationals via `mkRat` (proved equal to `+` below). -/
def ratAdd (a b : ℚ) : ℚ :=
  mkRat (a.num * b.den + b.num * a.den) (a.den * b.den)

/-- Multiplication of a rational by a natural number via `mkRat`. -/
def ratMulNat (q : ℚ) (n : Nat) : ℚ := mkRat (q.num * n) q.den

/-- Parse the body of a decimal literal (after any sign):
`digits [. digits] [exp]` or `. digits [exp]`.  The value
`(i + f / 10^|f|) * 10^e` is assembled as a single exact rational. -/
def parseDecBody (l : List Char) : Option ℚ :=
  let ip := digitsU l
  let intDigits := ip.1
  let fracPart : List Char × List Char :=
    match ip.2 with
    | '.' :: rest => digitsU rest
    | _ => ([], ip.2)
  let fracDigits := fracPart.1
  if intDigits.isEmpty && fracDigits.isEmpty then none
  else
    match parseExp fracPart.2 with
    | none => none
    | some (e, rest) =>
      if rest.isEmpty then
        let m : Nat := digitsVal intDigits * 10 ^ fracDigits.length +
          digitsVal fracDigits
        some (if 0 ≤ e then
                mkRat (m * 10 ^ e.toNat) (10 ^ fracDigits.length)
              else
                mkRat m (10 ^ fracDigits.length * 10 ^ (-e).toNat))
      else none

/-- `float(s)` for a string argument: `some` value on success, `none` when
Python raises `ValueError`. -/
def pyFloat (s : String) : Option PyFloat :=
  let l := (s.data.dropWhile pyIsSpace).reverse.dropWhile pyIsSpace |>.reverse
  let signAndRest : Bool × List Char :=
    match l with
    | '+' :: r => (false, r)
    | '-' :: r => (true, r)
    | r => (false, r)
  let neg := signAndRest.1
  let body := signAndRest.2
  let low := body.map lowerChar
  if low = ['i', 'n', 'f'] || low = ['i', 'n', 'f', 'i', 'n', 'i', 't', 'y'] then
    some (.inf neg)
  else if low = ['n', 'a', 'n'] then some .nan
  else
    match parseDecBody body with
    | none => none
    | some q => some (.finite (if neg then ratNeg q else q))

/-! ### Rounding

Python's `round(x, 2)` rounds to 2 decimal places with ties going to the
nearest even hundredth (banker's rounding), modelled on exact rationals. -/

/-- Round a rational to the nearest integer, ties to even.  The fractional
part `q - ⌊q⌋` equals `(q.num - ⌊q⌋ * q.den) / q.den`; doubling the
numerator and comparing with the denominator compares it with `1/2`. -/
def roundHalfEven (q : ℚ) : ℤ :=
  let f := q.floor
  let r2 := 2 * (q.num - f * q.den)
  if r2 < q.den then f
  else if (q.den : ℤ) < r2 then f + 1
  else if f % 2 = 0 then f else f + 1

/-- `round(x, 2)`. -/
def pyRound2 (q : ℚ) : ℚ := mkRat (roundHalfEven (ratMulNat q 100)) 100

/-! ### Worksheet cells -/

/-- A worksheet cell value: `None`, a text, or a number (exact rational
model of the Python float). -/
inductive Cell where
  | null
  | text (s : String)
  | num (q : ℚ)
  deriving DecidableEq, Repr

/-! ### Invoice rows and the ACH payment -/

/-- One row of the uploaded spreadsheet.  `paymentDate` is the value of
`pd.to_datetime(df["Payment Date"], errors='coerce').dt.date` for the row:
the coerced calendar date, or null when the raw value is unparseable.
`extendedAmount` is the `Extended Amount` value (null for a missing/NaN
cell).  The remaining columns are carried through to the output and are
modelled as opaque cell values. -/
structure InvoiceRow where
  paymentDate : Option Date
  lineItemDescription : String
  extendedAmount : Option ℚ
  quantity : Cell
  unitCost : Cell
  invoiceAmount : Cell
  dueDate : Cell
  caiInvoiceNumber : Cell
  supplierInvoiceNumber : Cell
  deriving DecidableEq, Repr

/-- The user-entered ACH transaction: the amount as entered (free text),
the description, and the payment date selected in the date picker. -/
structure AchPayment where
  amount : String
  description : String
  date : Date
  deriving DecidableEq, Repr

/-- Line 46: the rows whose (coerced) `Payment Date` equals the ACH date.
A null payment date never equals a calendar date. -/
def matchingRows (rows : List InvoiceRow) (d : Date) : List InvoiceRow :=
  rows.filter (fun r => r.paymentDate = some d)

/-- Line 52: `matching_df["Extended Amount"].sum()` — pandas skips null
values, so they contribute 0. -/
def sumExtended (rows : List InvoiceRow) : ℚ :=
  rows.foldl (fun a r => ratAdd a (r.extendedAmount.getD 0)) 0

/-- Line 53: `round(total, 2) != round(ach_amount_float, 2)` is false,
i.e. the rounded comparison succeeds.  An infinite or NaN entered amount
never equals the rounded finite sum (`nan != x` is true in Python for
every `x`). -/
def roundedEq2 (total : ℚ) (a : PyFloat) : Bool :=
  match a with
  | .finite q => pyRound2 total = pyRound2 q
  | .inf _ => false
  | .nan => false

/-! ### Per-row processing (steps 5–6) -/

/-- One reconciled output row, after field extraction, the FMS week ending
derivation, and the column renames (`Quantity`→`Hours`,
`Unit Cost`→`Bill Rate`, `Supplier's Invoice Number`→`ESG Invoice
Number`). -/
structure RRow where
  firstName : Option String
  lastName : Option String
  candidateId : Option String
  vectorWeekEnding : Option String
  fmsWeekEnding : Option String
  hours : Cell
  billRate : Cell
  extendedAmount : Option ℚ
  invoiceAmount : Cell
  dueDate : Cell
  caiInvoiceNumber : Cell
  esgInvoiceNumber : Cell
  deriving DecidableEq, Repr

/-- Lines 57–79 for a single row: run `parse_line_item` on the
description (its `IndexError`, if any, propagates), derive the FMS week
ending, and project/rename into the output schema. -/
def processRow (r : InvoiceRow) : Except PyExc RRow :=
  match parse_line_item r.lineItemDescription with
  | .error e => .error e
  | .ok p =>
    let firstName := p.map (·.firstName)
    let lastName := p.map (·.lastName)
    let candidateId := p.map (·.candidateId)
    let vector := p.map (·.vectorWeekEnding)
    .ok
      { firstName := firstName
        lastName := lastName
        candidateId := candidateId
        vectorWeekEnding := vector
        fmsWeekEnding := deriveFmsWeekEnding vector
        hours := r.quantity
        billRate := r.unitCost
        extendedAmount := r.extendedAmount
        invoiceAmount := r.invoiceAmount
        dueDate := r.dueDate
        caiInvoiceNumber := r.caiInvoiceNumber
        esgInvoiceNumber := r.supplierInvoiceNumber }

/-- Steps 5–6 over all matching rows; the first exception aborts. -/
def processRows : List InvoiceRow → Except PyExc (List RRow)
  | [] => .ok []
  | r :: rs =>
    match processRow r with
    | .error e => .error e
    | .ok p =>
      match processRows rs with
      | .error e => .error e
      | .ok ps => .ok (p :: ps)

/-! ### Sorting by `Vector Week Ending` (line 82)

`df_final.sort_values(by="Vector Week Ending")` sorts ascending by the
string value — lexicographic comparison of Python strings by code
point — and places null keys last (`na_position='last'`). -/

/-- Lexicographic order on character lists by code point. -/
def lexLe : List Char → List Char → Bool
  | [], _ => true
  | _ :: _, [] => false
  | a :: as, b :: bs =>
    if a.toNat < b.toNat then true
    else if b.toNat < a.toNat then false
    else lexLe as bs

/-- The sort key order: ascending on the string, null keys last. -/
def weekLe : Option String → Option String → Bool
  | none, none => true
  | none, some _ => false
  | some _, none => true
  | some s, some t => lexLe s.data t.data

/-- Insert into a sorted list. -/
def insertWeek (r : RRow) : List RRow → List RRow
  | [] => [r]
  | b :: l =>
    if weekLe r.vectorWeekEnding b.vectorWeekEnding then r :: b :: l
    else b :: insertWeek r l

/-- The sort of line 82 (insertion sort; `sort_values` uses an unstable
quicksort, so no tie order is promised by the source either). -/
def sortRows : List RRow → List RRow
  | [] => []
  | r :: l => insertWeek r (sortRows l)

/-! ### The reconciliation run (lines 40–135) -/

/-- The failure reasons the run can report via `st.error`. -/
inductive RecFailure where
  | nonNumericAmount
  | noMatchingRows
  | amountMismatch (total : ℚ) (entered : PyFloat)
  | unexpectedError (msg : String)
  deriving DecidableEq, Repr

/-- The data a successful run hands to the report writer: the sorted
reconciled rows and the ACH summary fields (each captured once). -/
structure SuccessData where
  rows : List RRow
  achDescription : String
  achAmount : PyFloat
  achDate : String
  deriving DecidableEq, Repr

/-- Outcome of one run: a failure message or a success. -/
inductive RecResult where
  | failure (f : RecFailure)
  | success (d : SuccessData)
  deriving DecidableEq, Repr

/-- The body of the `try` block: `float(ach_amount)` raises `ValueError`
on a non-numeric amount; then the date filter, the emptiness check, the
rounded amount comparison, and the per-row processing (whose exceptions
propagate).  Early `st.error` reports are returned as failure values. -/
def reconcileE (rows : List InvoiceRow) (p : AchPayment) :
    Except PyExc RecResult :=
  match pyFloat p.amount with
  | none => .error (.valueError "could not convert string to float")
  | some af =>
    if (matchingRows rows p.date).isEmpty then .ok (.failure .noMatchingRows)
    else if roundedEq2 (sumExtended (matchingRows rows p.date)) af then
      match processRows (matchingRows rows p.date) with
      | .error e => .error e
      | .ok prows =>
        .ok (.success
          { rows := sortRows prows
            achDescription := p.description
            achAmount := af
            achDate := fmtDate p.date })
    else
      .ok (.failure
        (.amountMismatch (sumExtended (matchingRows rows p.date)) af))

/-- Lines 40–135: the `try` block with its two handlers.  `except
ValueError` reports the non-numeric-amount message; `except Exception`
reports an unexpected error with the exception's message. -/
def reconcile (rows : List InvoiceRow) (p : AchPayment) : RecResult :=
  match reconcileE rows p with
  | .ok r => r
  | .error (.valueError _) => .failure .nonNumericAmount
  | .error e => .failure (.unexpectedError e.msg)

/-- Whether the run got past the rounded amount comparison of line 53:
it neither failed the earlier checks nor reported a mismatch. -/
def passedAmountCheck : RecResult → Bool
  | .failure .nonNumericAmount => false
  | .failure .noMatchingRows => false
  | .failure (.amountMismatch _ _) => false
  | .failure (.unexpectedError _) => true
  | .success _ => true

/-! ### The report body (lines 89–97)

The loop walks the sorted rows keeping `prev_week`; before a row whose
week differs from a *truthy* `prev_week` it appends one fully blank row.
`prev_week` starts as Python `None`, and a row's missing week is also
`None`, so both are modelled by `Option.none`. -/

/-- Python truthiness of a week value: `None` and the empty string are
falsy. -/
def pyTruthy : Option String → Bool
  | none => false
  | some s => !(s = "")

/-- An `Option` cell value (`None` → empty cell). -/
def optCell : Option String → Cell
  | none => .null
  | some s => .text s

/-- An optional amount as a cell (missing → empty cell). -/
def amountCell : Option ℚ → Cell
  | none => .null
  | some q => .num q

/-- `row.tolist()` in the body's column order. -/
def toCells (r : RRow) : List Cell :=
  [optCell r.firstName, optCell r.lastName, optCell r.candidateId,
   optCell r.vectorWeekEnding, optCell r.fmsWeekEnding, r.hours, r.billRate,
   amountCell r.extendedAmount, r.invoiceAmount, r.dueDate,
   r.caiInvoiceNumber, r.esgInvoiceNumber]

/-- `[""] * len(df_final.columns)` — the blank separator row. -/
def blankRow : List Cell := List.replicate 12 (.text "")

/-- The loop of lines 90–97, threading `prev_week`. -/
def bodyRowsAux : Option String → List RRow → List (List Cell)
  | _, [] => []
  | prev, r :: rs =>
    let cur := r.vectorWeekEnding
    (if pyTruthy prev && cur ≠ prev then [blankRow] else []) ++
      (toCells r :: bodyRowsAux cur rs)

/-- The formatted body rows: data rows in order with blank separators. -/
def bodyRows (l : List RRow) : List (List Cell) := bodyRowsAux none l

/-! ### The grouped description of the body

Independent formulation used to state the separator claim: the body is
the groups of consecutive equal `vectorWeekEnding` values, rendered in
order, with exactly one blank row between consecutive groups. -/

/-- Maximal runs of consecutive rows with equal `vectorWeekEnding`. -/
def groupRuns : List RRow → List (List RRow)
  | [] => []
  | r :: rs =>
    match groupRuns rs with
    | (b :: g) :: gs =>
      if b.vectorWeekEnding = r.vectorWeekEnding then (r :: b :: g) :: gs
      else [r] :: (b :: g) :: gs
    | gs => [r] :: gs

/-- Render groups with one blank row strictly between consecutive groups
(none leading, none trailing). -/
def interBlanks : List (List RRow) → List (List Cell)
  | [] => []
  | [g] => g.map toCells
  | g :: gs => g.map toCells ++ blankRow :: interBlanks gs

/-! ### The worksheet (lines 100–122) -/

/-- `len(str(cell.value)) if cell.value else 0`: falsy cell values
(`None`, the empty string, the number 0) count as length 0; otherwise the
length of the stringified value.  Numbers are rendered by `ratStr`
below. -/
def ratStrDigits : Nat → ℚ → List Char
  | 0, _ => []
  | fuel + 1, q =>
    if q.num = 0 then []
    else
      let m := q.num * 10
      let d := m / q.den
      digitChar d.toNat :: ratStrDigits fuel (mkRat (m - d * q.den) q.den)

/-- Decimal rendering of a (finite) float value, e.g. `500.0`, `-2.5`
(Python `str` of a float prints sign, integer part, a dot and the
fractional digits; values reaching the worksheet are exact decimals). -/
def natStrAux : Nat → Nat → List Char
  | 0, _ => []
  | fuel + 1, n => if n = 0 then [] else natStrAux fuel (n / 10) ++ [digitChar n]

/-- Decimal rendering of a natural number. -/
def natStr (n : Nat) : List Char :=
  if n = 0 then ['0'] else natStrAux 30 n

/-- Decimal rendering of a (finite) float value, e.g. `500.0`, `-2.5`
(Python `str` of a float prints sign, integer part, a dot and the
fractional digits; values reaching the worksheet are exact decimals). -/
def ratStr (q : ℚ) : String :=
  let sign : List Char := if q.num < 0 then ['-'] else []
  let a : ℚ := if q.num < 0 then ratNeg q else q
  let ip : ℤ := a.floor
  let fracDigits := ratStrDigits 30 (mkRat (a.num - ip * a.den) a.den)
  String.mk (sign ++ natStr ip.toNat ++ '.' ::
    (if fracDigits.isEmpty then ['0'] else fracDigits))

/-- The effective length used by the auto-size loop of line 121. -/
def cellEffLen : Cell → Nat
  | .null => 0
  | .text s => s.length
  | .num q => if q = 0 then 0 else (ratStr q).length

/-- The `ACH Amount` summary value as a cell. -/
def pyFloatCell : PyFloat → Cell
  | .finite q => .num q
  | .inf neg => .text (if neg then "-inf" else "inf")
  | .nan => .text "nan"

/-- The header row (line 111): the final column names in order. -/
def headerRow : List Cell :=
  [.text "First Name", .text "Last Name", .text "Candidate CAI ID",
   .text "Vector Week Ending", .text "FMS Week Ending", .text "Hours",
   .text "Bill Rate", .text "Extended Amount", .text "Invoice Amount",
   .text "Due Date", .text "CAI Invoice Number", .text "ESG Invoice Number"]

/-- Lines 100–117: the worksheet as a list of rows — summary block
(title, three key/value lines, one empty row), the header row, then the
formatted body. -/
def buildSheet (d : SuccessData) : List (List Cell) :=
  [[.text "ACH Summary"],
   [.text "ACH Description", .text d.achDescription],
   [.text "ACH Amount", pyFloatCell d.achAmount],
   [.text "ACH Date", .text d.achDate],
   []] ++ headerRow :: bodyRows d.rows

/-- Number of columns of the worksheet's used range. -/
def numCols (ws : List (List Cell)) : Nat :=
  ws.foldl (fun a row => max a row.length) 0

/-- Column `k` of the worksheet: one cell per row, empty where the row is
shorter (openpyxl yields empty cells for the unfilled positions of the
rectangular range). -/
def colCells (ws : List (List Cell)) (k : Nat) : List Cell :=
  ws.map (fun row => row.getD k .null)

/-- Lines 120–122 for one column:
`min(max(len(str(cell.value)) if cell.value else 0) + 2, 40)`. -/
def colWidth (cells : List Cell) : Nat :=
  min (cells.foldl (fun a c => max a (cellEffLen c)) 0 + 2) 40

/-- The display widths set by the auto-size loop, one per column. -/
def sheetWidths (ws : List (List Cell)) : List Nat :=
  (List.range (numCols ws)).map (fun k => colWidth (colCells ws k))

/-- The claim's width formula: the cap applied to the longest stringified
value *before* the fixed padding is added. -/
def specMaxLen (cells : List Cell) : Nat :=
  (cells.map cellEffLen).foldr max 0

/-! ### Concrete inputs used by the witnesses and counterexamples -/

/-- An invoice row whose pass-through columns are empty. -/
def invRow (pd : Option Date) (desc : String) (ea : Option ℚ) : InvoiceRow :=
  ⟨pd, desc, ea, .null, .null, .null, .null, .null, .null⟩

/-- A reconciled row whose pass-through columns are empty. -/
def mkRRow (fn ln cid vwe fwe : Option String) (ea : Option ℚ) : RRow :=
  ⟨fn, ln, cid, vwe, fwe, .null, .null, ea, .null, .null, .null, .null⟩

/-- Two rows summing to 1000.00 dated 2024-03-15. -/
def rows1000 : List InvoiceRow :=
  [invRow (some ⟨2024, 3, 15⟩)
     "John Smith (S12345)[C]:2024-03-10:2024-03-15" (some 500),
   invRow (some ⟨2024, 3, 15⟩)
     "Jane Doe (S2)[C]:2024-03-10:2024-03-15" (some 500)]

/-- The entered payment of the C1 witness: 999.99 against a 1000.00 sum. -/
def payMismatch : AchPayment := ⟨"999.99", "March Payroll", ⟨2024, 3, 15⟩⟩

/-- The entered payment of the C1 counterexample: amount "0", a date no
row carries, and an empty row set. -/
def payZero : AchPayment := ⟨"0", "x", ⟨2024, 1, 1⟩⟩

/-- The entered payment of the C4 witness: non-numeric amount over a row
set that would otherwise mismatch. -/
def payAbc : AchPayment := ⟨"abc", "x", ⟨2024, 3, 15⟩⟩

/-- A row whose description matches the pattern with an all-whitespace
name, with amounts agreeing so that row processing is reached. -/
def rowsWsName : List InvoiceRow :=
  [invRow (some ⟨2024, 1, 5⟩) "  (S1)[C]:2024-01-01:2024-01-02" (some 100)]

/-- The payment matching `rowsWsName`. -/
def payWsName : AchPayment := ⟨"100", "x", ⟨2024, 1, 5⟩⟩

/-- Three rows for the C8 witness: two parseable descriptions with
distinct week endings (deliberately out of order) and one unparseable
description (null week ending). -/
def rowsSortW : List InvoiceRow :=
  [invRow (some ⟨2024, 3, 15⟩)
     "John Smith (S12345)[C]:2024-03-10:2024-03-15" (some 500),
   invRow (some ⟨2024, 3, 15⟩) "no match" (some 250),
   invRow (some ⟨2024, 3, 15⟩)
     "Ann Q Lee (S7)[C]:2024-03-03:2024-03-08" (some 250)]

/-- The payment matching `rowsSortW`. -/
def paySortW : AchPayment := ⟨"1000", "March Payroll", ⟨2024, 3, 15⟩⟩

/-- The success data `reconcile rowsSortW paySortW` produces. -/
def sdSortW : SuccessData :=
  { rows :=
      [mkRRow (some "Ann") (some "Q Lee") (some "S7") (some "2024-03-08")
         (some "2024-03-10") (some 250),
       mkRRow (some "John") (some "Smith") (some "S12345")
         (some "2024-03-15") (some "2024-03-17") (some 500),
       mkRRow none none none none none (some 250)]
    achDescription := "March Payroll"
    achAmount := .finite 1000
    achDate := "2024-03-15" }

/-- The C7 witness rows: week endings 2024-01-07, 2024-01-07,
2024-01-14. -/
def rowsGroupW : List InvoiceRow :=
  [invRow (some ⟨2024, 1, 10⟩) "A B (S1)[C]:2024-01-01:2024-01-07" (some 1),
   invRow (some ⟨2024, 1, 10⟩) "C D (S2)[C]:2024-01-01:2024-01-07" (some 2),
   invRow (some ⟨2024, 1, 10⟩) "E F (S3)[C]:2024-01-08:2024-01-14" (some 3)]

/-- `processRows rowsGroupW` output. -/
def prowsGroupW : List RRow :=
  [mkRRow (some "A") (some "B") (some "S1") (some "2024-01-07")
     (some "2024-01-09") (some 1),
   mkRRow (some "C") (some "D") (some "S2") (some "2024-01-07")
     (some "2024-01-09") (some 2),
   mkRRow (some "E") (some "F") (some "S3") (some "2024-01-14")
     (some "2024-01-16") (some 3)]

/-- One row whose first name is 40 characters long (for the width-cap
counterexample). -/
def rowsWide : List InvoiceRow :=
  [invRow (some ⟨2024, 1, 5⟩)
     "Aaaaaaaaaaaaaaaaaaaaaaaaaaaaaaaaaaaaaaaa (S1)[C]:2024-01-01:2024-01-05"
     (some 500)]

/-- The payment matching `rowsWide`. -/
def payWide : AchPayment := ⟨"500", "Pay", ⟨2024, 1, 5⟩⟩

/-- The success data `reconcile rowsWide payWide` produces. -/
def sdWide : SuccessData :=
  { rows :=
      [mkRRow (some "Aaaaaaaaaaaaaaaaaaaaaaaaaaaaaaaaaaaaaaaa") (some "")
         (some "S1") (some "2024-01-05") (some "2024-01-07") (some 500)]
    achDescription := "Pay"
    achAmount := .finite 500
    achDate := "2024-01-05" }

/-! ## Theorems

First, lemmas anchoring the `mkRat`-based arithmetic to the ordinary
rational operations. -/

theorem ratNeg_eq (q : ℚ) : ratNeg q = -q := by
  unfold ratNeg
  rw [Rat.mkRat_eq_div]
  push_cast
  rw [neg_div, Rat.num_div_den]

theorem ratAdd_eq (a b : ℚ) : ratAdd a b = a + b := by
  unfold ratAdd
  rw [Rat.mkRat_eq_div]
  have ha : (a.den : ℚ) ≠ 0 := Nat.cast_ne_zero.mpr a.den_ne_zero
  have hb : (b.den : ℚ) ≠ 0 := Nat.cast_ne_zero.mpr b.den_ne_zero
  conv_rhs => rw [← Rat.num_div_den a, ← Rat.num_div_den b]
  push_cast
  field_simp

theorem ratMulNat_eq (q : ℚ) (n : Nat) : ratMulNat q n = q * n := by
  unfold ratMulNat
  rw [Rat.mkRat_eq_div]
  have hq : (q.den : ℚ) ≠ 0 := Nat.cast_ne_zero.mpr q.den_ne_zero
  conv_rhs => rw [← Rat.num_div_den q]
  push_cast
  field_simp

theorem sumExtended_foldl (l : List InvoiceRow) (a : ℚ) :
    l.foldl (fun x r => ratAdd x (r.extendedAmount.getD 0)) a =
      a + (l.map (fun r => r.extendedAmount.getD 0)).sum := by
  induction l generalizing a with
  | nil => simp
  | cons r rs ih =>
    rw [List.foldl_cons, ih, ratAdd_eq, List.map_cons, List.sum_cons]
    ring

/-- The summation of line 52 is the sum of the (null-defaulted) extended
amounts. -/
theorem sumExtended_eq (l : List InvoiceRow) :
    sumExtended l = (l.map (fun r => r.extendedAmount.getD 0)).sum := by
  unfold sumExtended
  rw [sumExtended_foldl]
  ring

/-! Error-shape lemmas: the only exception the modelled row processing
can raise is the parser's `IndexError`. -/

theorem parse_line_item_error {s : String} {e : PyExc}
    (h : parse_line_item s = .error e) :
    e = .indexError "list index out of range" := by
  unfold parse_line_item at h
  split at h
  · exact absurd h (by simp)
  · split at h
    · simp only [Except.error.injEq] at h
      exact h.symm
    · exact absurd h (by simp)

theorem processRow_error {r : InvoiceRow} {e : PyExc}
    (h : processRow r = .error e) :
    e = .indexError "list index out of range" := by
  unfold processRow at h
  split at h
  · rename_i e2 he
    simp only [Except.error.injEq] at h
    exact h.symm ▸ parse_line_item_error he
  · exact absurd h (by simp)

theorem processRows_error {l : List InvoiceRow} {e : PyExc}
    (h : processRows l = .error e) :
    e = .indexError "list index out of range" := by
  induction l with
  | nil => exact absurd h (by simp [processRows])
  | cons r rs ih =>
    unfold processRows at h
    split at h
    · rename_i he
      simp only [Except.error.injEq] at h
      subst h
      exact processRow_error he
    · split at h
      · rename_i he
        simp only [Except.error.injEq] at h
        subst h
        exact ih he
      · exact absurd h (by simp)

/-- C4: whenever the entered amount does not parse as a number,
`reconcile` fails with the non-numeric-amount reason, for *every* row
set — the amount parse precedes all row processing, so no row is read,
filtered or compared first, and a row set that would otherwise produce a
different failure changes nothing. -/
theorem C4_nonNumericAmount_first (rows : List InvoiceRow)
    (p : AchPayment) (h : pyFloat p.amount = none) :
    reconcile rows p = .failure .nonNumericAmount := by
  unfold reconcile reconcileE
  rw [h]

/-- Witness for C4: the amount "abc" over a nonempty row set whose sum
(1000.00) would mismatch the C1 witness amount — the result is still the
non-numeric-amount failure. -/
theorem C4_nonNumericAmount_first_witness :
    reconcile rows1000 payAbc = .failure .nonNumericAmount ∧
    (matchingRows rows1000 payAbc.date).length = 2 :=
  ⟨C4_nonNumericAmount_first rows1000 payAbc (by decide), by decide⟩

/-- C3 (code bug): on the matching description `"  (S1)[C]:2024-01-01:
2024-01-02"` — whose name group is a single space — `full_name[0]` raises
`IndexError`, so the parser is not total; inside a run the exception
propagates to the top-level handler and aborts the run as an unexpected
error instead of degrading the row to null fields. -/
theorem C3_parser_raises_IndexError :
    parse_line_item "  (S1)[C]:2024-01-01:2024-01-02" =
      .error (.indexError "list index out of range") ∧
    reconcile rowsWsName payWsName =
      .failure (.unexpectedError "list index out of range") := by decide

/-- C6: an exception raised during the row-processing steps (after the
amount parse succeeded) is caught by the top-level handler and reported
as an unexpected error carrying exactly the exception's message; the run
returns this single failure value and nothing else. -/
theorem C6_unexpectedError_preserves_message (rows : List InvoiceRow)
    (p : AchPayment) (e : PyExc) (hnum : pyFloat p.amount ≠ none)
    (herr : reconcileE rows p = .error e) :
    reconcile rows p = .failure (.unexpectedError e.msg) := by
  have he : e = .indexError "list index out of range" := by
    unfold reconcileE at herr
    split at herr
    · rename_i hnone
      exact absurd hnone hnum
    · split at herr
      · exact Except.noConfusion herr
      · split at herr
        · split at herr
          · rename_i hp
            simp only [Except.error.injEq] at herr
            subst herr
            exact processRows_error hp
          · exact Except.noConfusion herr
        · exact Except.noConfusion herr
  subst he
  unfold reconcile
  rw [herr]

/-- Witness for C6: the `IndexError` raised by the parser on an
all-whitespace name surfaces as the unexpected-error failure with its
message preserved. -/
theorem C6_unexpectedError_witness :
    reconcile rowsWsName payWsName =
      .failure (.unexpectedError "list index out of range") :=
  C6_unexpectedError_preserves_message rowsWsName payWsName
    (.indexError "list index out of range") (by decide) (by decide)

/-- C1 (amended): when the entered amount parses as a finite number and
at least one row matches the payment date, the run proceeds past the
amount check iff the 2-decimal-rounded sum of the matching rows'
extended amounts (nulls as 0) equals the 2-decimal-rounded entered
amount; on inequality the run fails with an amount-mismatch failure
carrying both the computed sum and the entered amount. -/
theorem C1_amount_check (rows : List InvoiceRow) (p : AchPayment) (q : ℚ)
    (hq : pyFloat p.amount = some (.finite q))
    (hne : matchingRows rows p.date ≠ []) :
    (passedAmountCheck (reconcile rows p) = true ↔
      pyRound2 (sumExtended (matchingRows rows p.date)) = pyRound2 q) ∧
    (pyRound2 (sumExtended (matchingRows rows p.date)) ≠ pyRound2 q →
      reconcile rows p =
        .failure
          (.amountMismatch (sumExtended (matchingRows rows p.date))
            (.finite q))) := by
  have hE : (matchingRows rows p.date).isEmpty = false := by
    cases hM : matchingRows rows p.date with
    | nil => exact absurd hM hne
    | cons a l => rfl
  by_cases hround :
      pyRound2 (sumExtended (matchingRows rows p.date)) = pyRound2 q
  · have hr2 : roundedEq2 (sumExtended (matchingRows rows p.date))
        (.finite q) = true := by
      simp [roundedEq2, hround]
    simp only [reconcile, reconcileE, hq, hE, hr2, Bool.false_eq_true,
      if_false, if_true]
    refine ⟨⟨fun _ => hround, fun _ => ?_⟩, fun hc => absurd hround hc⟩
    cases hp : processRows (matchingRows rows p.date) with
    | error e =>
      have he := processRows_error hp
      subst he
      trivial
    | ok prows => trivial
  · have hr2 : roundedEq2 (sumExtended (matchingRows rows p.date))
        (.finite q) = false := by
      simp [roundedEq2, hround]
    simp only [reconcile, reconcileE, hq, hE, hr2, Bool.false_eq_true,
      if_false]
    refine ⟨⟨fun hpass => ?_, fun hc => absurd hc hround⟩, fun _ => by trivial⟩
    exact absurd hpass (by simp [passedAmountCheck])

/-! Lemmas describing the regular-expression match on structured
descriptions. -/

theorem takeDigits_append (ds : List Char) (c : Char) (r : List Char)
    (hds : ∀ x ∈ ds, x.isDigit = true) (hc : c.isDigit = false) :
    takeDigits (ds ++ c :: r) = (ds, c :: r) := by
  induction ds with
  | nil => simp [takeDigits, hc]
  | cons d ds ih =>
    have hd : d.isDigit = true := hds d (by simp)
    simp only [List.cons_append, takeDigits, hd, if_true, List.append_eq]
    rw [ih (fun x hx => hds x (by simp [hx]))]

theorem matchDate_shape (d r : List Char) (h : dateShape d = true) :
    matchDate (d ++ r) = some (d, r) := by
  unfold dateShape at h
  split at h
  · simp only [List.cons_append, List.nil_append, matchDate, h, if_true]
  · exact Bool.noConfusion h

theorem matchDates_structured (d1 d2 tail : List Char)
    (h1 : dateShape d1 = true) (h2 : dateShape d2 = true) :
    matchDates (d1 ++ ':' :: (d2 ++ tail)) = some (d1, d2) := by
  simp only [matchDates, matchDate_shape d1 (':' :: (d2 ++ tail)) h1,
    matchDate_shape d2 tail h2, reduceIte]

theorem matchAfterNameBody_structured (digits d1 d2 tail : List Char)
    (hd : digits ≠ []) (hdd : ∀ c ∈ digits, c.isDigit = true)
    (h1 : dateShape d1 = true) (h2 : dateShape d2 = true) :
    matchAfterNameBody (digits ++ ')' :: '[' :: 'C' :: ']' :: ':' ::
        (d1 ++ ':' :: (d2 ++ tail))) = some ('S' :: digits, d1, d2) := by
  have hE : digits.isEmpty = false := by
    cases digits with
    | nil => exact absurd rfl hd
    | cons a l => rfl
  simp only [matchAfterNameBody,
    takeDigits_append digits ')' _ hdd (by decide), hE,
    Bool.false_eq_true, if_false,
    matchDates_structured d1 d2 tail h1 h2, and_self, reduceIte]

theorem matchAfterName_cons3 (a b s : Char) (rest : List Char) :
    matchAfterName (a :: b :: s :: rest) =
      if a = ' ' ∧ b = '(' ∧ s = 'S' then matchAfterNameBody rest
      else none := rfl

theorem matchAfterName_structured (digits d1 d2 tail : List Char)
    (hd : digits ≠ []) (hdd : ∀ c ∈ digits, c.isDigit = true)
    (h1 : dateShape d1 = true) (h2 : dateShape d2 = true) :
    matchAfterName (' ' :: '(' :: 'S' ::
        (digits ++ ')' :: '[' :: 'C' :: ']' :: ':' ::
          (d1 ++ ':' :: (d2 ++ tail)))) =
      some ('S' :: digits, d1, d2) := by
  rw [matchAfterName_cons3, if_pos ⟨rfl, rfl, rfl⟩]
  exact matchAfterNameBody_structured digits d1 d2 tail hd hdd h1 h2

theorem matchAfterName_second_not_paren (x y : Char) (l : List Char)
    (hy : y ≠ '(') : matchAfterName (x :: y :: l) = none := by
  cases l with
  | nil => rfl
  | cons s rest =>
    rw [matchAfterName_cons3]
    exact if_neg (fun h => hy h.2.1)

theorem reMatchAux_step (acc : List Char) (c : Char) (cs : List Char) :
    reMatchAux acc (c :: cs) =
      if c = '\n' then none
      else
        match matchAfterName cs with
        | some (cid, d1, d2) => some ((c :: acc).reverse, cid, d1, d2)
        | none => reMatchAux (c :: acc) cs := rfl

theorem reMatchAux_step_found (acc : List Char) (c : Char)
    (cs cid d1 d2 : List Char) (hc : c ≠ '\n')
    (h : matchAfterName cs = some (cid, d1, d2)) :
    reMatchAux acc (c :: cs) = some ((c :: acc).reverse, cid, d1, d2) := by
  rw [reMatchAux_step, if_neg hc, h]

theorem reMatchAux_step_skip (acc : List Char) (c : Char) (cs : List Char)
    (hc : c ≠ '\n') (h : matchAfterName cs = none) :
    reMatchAux acc (c :: cs) = reMatchAux (c :: acc) cs := by
  rw [reMatchAux_step, if_neg hc, h]

/-- The lazy group 1 scan: while the remaining name contains no `(` (so
no earlier match is possible) and no newline, the scanner consumes the
whole name and matches the structured remainder there. -/
theorem reMatchAux_structured (pre : List Char) (acc : List Char)
    (digits d1 d2 tail : List Char) (hp : pre ≠ []) (hpar : '(' ∉ pre)
    (hnl : '\n' ∉ pre) (hd : digits ≠ [])
    (hdd : ∀ c ∈ digits, c.isDigit = true) (h1 : dateShape d1 = true)
    (h2 : dateShape d2 = true) :
    reMatchAux acc (descText pre digits d1 d2 tail) =
      some (acc.reverse ++ pre, 'S' :: digits, d1, d2) := by
  induction pre generalizing acc with
  | nil => exact absurd rfl hp
  | cons c pre ih =>
    have hcnl : c ≠ '\n' := fun h => hnl (by simp [h])
    cases pre with
    | nil =>
      rw [descText, List.cons_append, List.nil_append,
        reMatchAux_step_found acc c _ ('S' :: digits) d1 d2 hcnl
          (matchAfterName_structured digits d1 d2 tail hd hdd h1 h2)]
      simp
    | cons c2 pre2 =>
      have hnone : matchAfterName (c2 :: (pre2 ++ ' ' :: '(' :: 'S' ::
          (digits ++ ')' :: '[' :: 'C' :: ']' :: ':' ::
            (d1 ++ ':' :: (d2 ++ tail))))) = none := by
        cases pre2 with
        | nil =>
          rw [List.nil_append]
          exact matchAfterName_second_not_paren c2 ' ' _ (by decide)
        | cons c3 pre3 =>
          rw [List.cons_append]
          have hc3 : c3 ≠ '(' := fun h => hpar (by simp [h])
          exact matchAfterName_second_not_paren c2 c3 _ hc3
      have ihx := ih (c :: acc) (by simp) (fun h => hpar (by simp [h]))
        (fun h => hnl (by simp [h]))
      rw [descText] at ihx ⊢
      simp only [List.cons_append] at ihx ⊢
      rw [reMatchAux_step_skip acc c _ hcnl hnone, ihx]
      simp

/-- C2: for a description built from a name (no parenthesis, no newline,
at least one whitespace token), a nonempty digit run, and two
`YYYY-MM-DD`-shaped dates, the parser returns exactly: the first
whitespace token as the first name, the remaining tokens joined by
single spaces as the last name (empty when only one token exists), the
captured `S` + digits token as the candidate id, and the *second* date as
the vector week ending. -/
theorem C2_parse_extracts_fields (name digits d1 d2 : List Char)
    (hpar : '(' ∉ name) (hnl : '\n' ∉ name) (hd : digits ≠ [])
    (hdd : ∀ c ∈ digits, c.isDigit = true) (h1 : dateShape d1 = true)
    (h2 : dateShape d2 = true) (t : List Char) (ts : List (List Char))
    (htok : pySplit name = t :: ts) :
    parse_line_item (String.mk (descText name digits d1 d2 [])) =
      .ok (some
        { firstName := String.mk t
          lastName := String.intercalate " " (ts.map String.mk)
          candidateId := String.mk ('S' :: digits)
          vectorWeekEnding := String.mk d2 }) := by
  have hp : name ≠ [] := by
    intro h
    rw [h] at htok
    exact List.noConfusion htok
  have hm := reMatchAux_structured name [] digits d1 d2 [] hp hpar hnl hd
    hdd h1 h2
  simp only [List.reverse_nil, List.nil_append] at hm
  unfold parse_line_item reMatch
  rw [show (String.mk (descText name digits d1 d2 [])).data =
    descText name digits d1 d2 [] from rfl, hm]
  simp only [htok]

/-- Witness for C2 at the concrete description
`John Smith (S12345)[C]:2024-01-01:2024-01-05`. -/
theorem C2_parse_extracts_fields_witness :
    parse_line_item "John Smith (S12345)[C]:2024-01-01:2024-01-05" =
      .ok (some
        { firstName := "John"
          lastName := "Smith"
          candidateId := "S12345"
          vectorWeekEnding := "2024-01-05" }) := by
  have h := C2_parse_extracts_fields "John Smith".data "12345".data
    "2024-01-01".data "2024-01-05".data (by decide) (by decide)
    (by decide) (by decide) (by decide) (by decide) "John".data
    ["Smith".data] (by decide)
  have e : String.mk (descText "John Smith".data "12345".data
      "2024-01-01".data "2024-01-05".data []) =
        "John Smith (S12345)[C]:2024-01-01:2024-01-05" := by decide
  rw [e] at h
  rw [h]
  decide

/-- C10: `re.match` anchors only at the start, so a description whose
*initial segment* matches the pattern parses successfully whatever text
follows the second date — including further digits glued to it — and the
captured week ending is the 10-character date, not the longer token. -/
theorem C10_match_is_initial_segment (name digits d1 d2 tail : List Char)
    (hpar : '(' ∉ name) (hnl : '\n' ∉ name) (hd : digits ≠ [])
    (hdd : ∀ c ∈ digits, c.isDigit = true) (h1 : dateShape d1 = true)
    (h2 : dateShape d2 = true) (t : List Char) (ts : List (List Char))
    (htok : pySplit name = t :: ts) :
    parse_line_item (String.mk (descText name digits d1 d2 tail)) =
      .ok (some
        { firstName := String.mk t
          lastName := String.intercalate " " (ts.map String.mk)
          candidateId := String.mk ('S' :: digits)
          vectorWeekEnding := String.mk d2 }) := by
  have hp : name ≠ [] := by
    intro h
    rw [h] at htok
    exact List.noConfusion htok
  have hm := reMatchAux_structured name [] digits d1 d2 tail hp hpar hnl
    hd hdd h1 h2
  simp only [List.reverse_nil, List.nil_append] at hm
  unfold parse_line_item reMatch
  rw [show (String.mk (descText name digits d1 d2 tail)).data =
    descText name digits d1 d2 tail from rfl, hm]
  simp only [htok]

/-- Witness for C10: extra digits and text after the second date are
ignored and the week ending is the 10-character date. -/
theorem C10_match_is_initial_segment_witness :
    parse_line_item "Ann Lee (S9)[C]:2024-01-01:2024-01-0523 extra" =
      .ok (some
        { firstName := "Ann"
          lastName := "Lee"
          candidateId := "S9"
          vectorWeekEnding := "2024-01-05" }) := by
  have h := C10_match_is_initial_segment "Ann Lee".data "9".data
    "2024-01-01".data "2024-01-05".data "23 extra".data (by decide)
    (by decide) (by decide) (by decide) (by decide) (by decide)
    "Ann".data ["Lee".data] (by decide)
  have e : String.mk (descText "Ann Lee".data "9".data "2024-01-01".data
      "2024-01-05".data "23 extra".data) =
        "Ann Lee (S9)[C]:2024-01-01:2024-01-0523 extra" := by decide
  rw [e] at h
  rw [h]
  decide

/-! Digit-character lemmas for the date format/parse roundtrip. -/

theorem digitChar_mod (n : Nat) : digitChar (n % 10) = digitChar n := by
  have h : ∀ x : Nat, x % 10 % 10 = x % 10 :=
    fun x => Nat.mod_mod_of_dvd x dvd_rfl
  simp only [digitChar, h]

theorem digitChar_isDigit (n : Nat) : (digitChar n).isDigit = true := by
  rw [← digitChar_mod]
  have h : n % 10 < 10 := Nat.mod_lt _ (by norm_num)
  revert h
  generalize n % 10 = k
  intro h
  interval_cases k <;> decide

theorem charToDigit_digitChar (n : Nat) :
    charToDigit (digitChar n) = n % 10 := by
  rw [← digitChar_mod]
  have h : n % 10 < 10 := Nat.mod_lt _ (by norm_num)
  revert h
  generalize n % 10 = k
  intro h
  interval_cases k <;> decide

theorem daysInMonth_le (y m : Nat) : daysInMonth y m ≤ 31 := by
  unfold daysInMonth
  split
  · split <;> omega
  · split <;> omega

/-- Formatting a valid date with a four-digit year and parsing it back
recovers the date. -/
theorem parseDateYMD_fmtDate (d : Date) (hv : validDate d = true)
    (hy : d.year ≤ 9999) : parseDateYMD (fmtDate d) = some d := by
  have hb : 1 ≤ d.month ∧ d.month ≤ 12 ∧ 1 ≤ d.day ∧
      d.day ≤ daysInMonth d.year d.month := by
    simpa [validDate, Bool.and_eq_true, decide_eq_true_eq, and_assoc]
      using hv
  have hd31 : d.day ≤ 31 := hb.2.2.2.trans (daysInMonth_le _ _)
  unfold fmtDate parseDateYMD pad4 pad2
  simp only [List.cons_append, List.nil_append, String.data]
  simp only [digitChar_isDigit, Bool.and_self, Bool.true_and, if_true,
    charToDigit_digitChar, reduceIte]
  have e1 : d.year / 1000 % 10 * 1000 + d.year / 100 % 10 * 100 +
      d.year / 10 % 10 * 10 + d.year % 10 = d.year := by omega
  have e2 : d.month / 10 % 10 * 10 + d.month % 10 = d.month := by omega
  have e3 : d.day / 10 % 10 * 10 + d.day % 10 = d.day := by omega
  rw [e1, e2, e3, hv]
  rfl

/-- C5: the FMS week ending derivation maps null to null, maps a vector
week ending that fails to parse as a valid `YYYY-MM-DD` date to null
without raising, and otherwise yields the date two calendar days later
formatted `YYYY-MM-DD`; in particular "2024-01-01" maps to "2024-01-03"
and the derivation rolls over months, years and leap days. -/
theorem C5_deriveFmsWeekEnding :
    deriveFmsWeekEnding none = none ∧
    (∀ s, parseDateYMD s = none → deriveFmsWeekEnding (some s) = none) ∧
    (∀ d : Date, validDate d = true → d.year ≤ 9999 →
      deriveFmsWeekEnding (some (fmtDate d)) =
        some (fmtDate (dateSucc (dateSucc d)))) ∧
    deriveFmsWeekEnding (some "2024-01-01") = some "2024-01-03" ∧
    deriveFmsWeekEnding (some "2024-12-31") = some "2025-01-02" ∧
    deriveFmsWeekEnding (some "2024-02-28") = some "2024-03-01" ∧
    deriveFmsWeekEnding (some "2023-02-28") = some "2023-03-02" ∧
    deriveFmsWeekEnding (some "2024-13-01") = none ∧
    deriveFmsWeekEnding (some "garbage") = none := by
  refine ⟨rfl, ?_, ?_, by decide, by decide, by decide, by decide,
    by decide, by decide⟩
  · intro s h
    simp only [deriveFmsWeekEnding, h]
  · intro d hv hy
    simp only [deriveFmsWeekEnding, parseDateYMD_fmtDate d hv hy]

/-- Witness for C5: the general two-day rule applied at the concrete
year-end date 2024-12-31. -/
theorem C5_deriveFmsWeekEnding_witness :
    deriveFmsWeekEnding (some (fmtDate ⟨2024, 12, 31⟩)) =
      some (fmtDate (dateSucc (dateSucc ⟨2024, 12, 31⟩))) :=
  C5_deriveFmsWeekEnding.2.2.1 ⟨2024, 12, 31⟩ (by decide) (by decide)

/-! Order lemmas for the `Vector Week Ending` sort. -/

theorem lexLe_total (a b : List Char) :
    lexLe a b = true ∨ lexLe b a = true := by
  induction a generalizing b with
  | nil => exact Or.inl rfl
  | cons x xs ih =>
    cases b with
    | nil => exact Or.inr rfl
    | cons y ys =>
      unfold lexLe
      by_cases hxy : x.toNat < y.toNat
      · left
        rw [if_pos hxy]
      · by_cases hyx : y.toNat < x.toNat
        · right
          rw [if_pos hyx]
        · rw [if_neg hxy, if_neg hyx, if_neg hyx, if_neg hxy]
          exact ih ys

theorem lexLe_trans (a b c : List Char) (hab : lexLe a b = true)
    (hbc : lexLe b c = true) : lexLe a c = true := by
  induction a generalizing b c with
  | nil => rfl
  | cons x xs ih =>
    cases b with
    | nil => exact absurd hab (by simp [lexLe])
    | cons y ys =>
      cases c with
      | nil => exact absurd hbc (by simp [lexLe])
      | cons z zs =>
        unfold lexLe at hab hbc ⊢
        by_cases hxy : x.toNat < y.toNat
        · by_cases hyz : y.toNat < z.toNat
          · rw [if_pos (by omega : x.toNat < z.toNat)]
          · rw [if_neg hyz] at hbc
            by_cases hzy : z.toNat < y.toNat
            · rw [if_pos hzy] at hbc
              exact Bool.noConfusion hbc
            · rw [if_pos (by omega : x.toNat < z.toNat)]
        · rw [if_neg hxy] at hab
          by_cases hyx : y.toNat < x.toNat
          · rw [if_pos hyx] at hab
            exact Bool.noConfusion hab
          · rw [if_neg hyx] at hab
            by_cases hyz : y.toNat < z.toNat
            · rw [if_pos (by omega : x.toNat < z.toNat)]
            · rw [if_neg hyz] at hbc
              by_cases hzy : z.toNat < y.toNat
              · rw [if_pos hzy] at hbc
                exact Bool.noConfusion hbc
              · rw [if_neg hzy] at hbc
                rw [if_neg (by omega : ¬x.toNat < z.toNat),
                  if_neg (by omega : ¬z.toNat < x.toNat)]
                exact ih ys zs hab hbc

theorem weekLe_total (a b : Option String) :
    weekLe a b = true ∨ weekLe b a = true := by
  cases a with
  | none =>
    cases b with
    | none => exact Or.inl rfl
    | some t => exact Or.inr rfl
  | some s =>
    cases b with
    | none => exact Or.inl rfl
    | some t => exact lexLe_total s.data t.data

theorem weekLe_trans (a b c : Option String) (hab : weekLe a b = true)
    (hbc : weekLe b c = true) : weekLe a c = true := by
  cases a with
  | none =>
    cases b with
    | none =>
      cases c with
      | none => rfl
      | some t => exact Bool.noConfusion hbc
    | some s => exact Bool.noConfusion hab
  | some s =>
    cases b with
    | none =>
      cases c with
      | none => rfl
      | some t => exact Bool.noConfusion hbc
    | some t =>
      cases c with
      | none => rfl
      | some u => exact lexLe_trans s.data t.data u.data hab hbc

theorem mem_insertWeek (x r : RRow) (l : List RRow)
    (h : x ∈ insertWeek r l) : x = r ∨ x ∈ l := by
  induction l with
  | nil => simpa [insertWeek] using h
  | cons b l ih =>
    unfold insertWeek at h
    by_cases hle : weekLe r.vectorWeekEnding b.vectorWeekEnding = true
    · rw [if_pos hle] at h
      simp only [List.mem_cons] at h ⊢
      tauto
    · rw [if_neg hle] at h
      simp only [List.mem_cons] at h ⊢
      rcases h with h | h
      · tauto
      · rcases ih h with h2 | h2 <;> tauto

theorem insertWeek_pairwise (r : RRow) (l : List RRow)
    (h : List.Pairwise
      (fun a b : RRow =>
        weekLe a.vectorWeekEnding b.vectorWeekEnding = true) l) :
    List.Pairwise
      (fun a b : RRow =>
        weekLe a.vectorWeekEnding b.vectorWeekEnding = true)
      (insertWeek r l) := by
  induction l with
  | nil => simp [insertWeek]
  | cons b l ih =>
    rw [List.pairwise_cons] at h
    unfold insertWeek
    by_cases hle : weekLe r.vectorWeekEnding b.vectorWeekEnding = true
    · rw [if_pos hle]
      rw [List.pairwise_cons]
      refine ⟨?_, List.Pairwise.cons h.1 h.2⟩
      intro x hx
      simp only [List.mem_cons] at hx
      rcases hx with rfl | hx
      · exact hle
      · exact weekLe_trans _ _ _ hle (h.1 x hx)
    · rw [if_neg hle]
      have hbr : weekLe b.vectorWeekEnding r.vectorWeekEnding = true :=
        (weekLe_total _ _).resolve_left hle
      rw [List.pairwise_cons]
      refine ⟨?_, ih h.2⟩
      intro x hx
      rcases mem_insertWeek x r l hx with h2 | h2
      · rw [h2]
        exact hbr
      · exact h.1 x h2

theorem sortRows_pairwise (l : List RRow) :
    List.Pairwise
      (fun a b : RRow =>
        weekLe a.vectorWeekEnding b.vectorWeekEnding = true)
      (sortRows l) := by
  induction l with
  | nil => simp [sortRows]
  | cons r l ih => exact insertWeek_pairwise r (sortRows l) ih

theorem mem_sortRows (x : RRow) (l : List RRow) (h : x ∈ sortRows l) :
    x ∈ l := by
  induction l with
  | nil => simp [sortRows] at h
  | cons r l ih =>
    unfold sortRows at h
    rcases mem_insertWeek x r (sortRows l) h with h2 | h2
    · simp [h2]
    · simp [ih h2]

/-- A successful reconciliation's rows are the insertion sort of the
processed rows. -/
theorem success_rows_eq_sortRows (rows : List InvoiceRow)
    (p : AchPayment) (d : SuccessData)
    (h : reconcile rows p = .success d) :
    ∃ prows, processRows (matchingRows rows p.date) = .ok prows ∧
      d.rows = sortRows prows := by
  unfold reconcile at h
  cases hE : reconcileE rows p with
  | error e =>
    rw [hE] at h
    cases e with
    | valueError m => exact RecResult.noConfusion h
    | indexError m => exact RecResult.noConfusion h
  | ok r =>
    rw [hE] at h
    cases r with
    | failure f => exact RecResult.noConfusion h
    | success dd =>
      simp only [RecResult.success.injEq] at h
      subst h
      unfold reconcileE at hE
      split at hE
      · exact Except.noConfusion hE
      · split at hE
        · simp only [Except.ok.injEq] at hE
          exact RecResult.noConfusion hE
        · split at hE
          · split at hE
            · exact Except.noConfusion hE
            · rename_i prows hp
              simp only [Except.ok.injEq, RecResult.success.injEq] at hE
              exact ⟨prows, hp, by rw [← hE]⟩
          · simp only [Except.ok.injEq] at hE
            exact RecResult.noConfusion hE

/-- C8: in every success result the reconciled rows are sorted ascending
by `vectorWeekEnding` (lexicographic on the `YYYY-MM-DD` text), and every
row with a null week ending is placed after every row with a non-null
one; the placement is the same on every run because `reconcile` is a
function of its inputs. -/
theorem C8_success_rows_sorted (rows : List InvoiceRow) (p : AchPayment)
    (d : SuccessData) (h : reconcile rows p = .success d) :
    List.Pairwise
      (fun a b : RRow =>
        weekLe a.vectorWeekEnding b.vectorWeekEnding = true) d.rows ∧
    List.Pairwise
      (fun a b : RRow =>
        a.vectorWeekEnding = none → b.vectorWeekEnding = none) d.rows := by
  obtain ⟨prows, _, hrows⟩ := success_rows_eq_sortRows rows p d h
  rw [hrows]
  refine ⟨sortRows_pairwise prows, ?_⟩
  refine (sortRows_pairwise prows).imp ?_
  intro a b hab hna
  rw [hna] at hab
  cases hb : b.vectorWeekEnding with
  | none => rfl
  | some t =>
    rw [hb] at hab
    exact Bool.noConfusion hab

/-! Shape lemmas: a parsed vector week ending is a 10-character date, in
particular never the empty string (so it is always truthy in the
blank-row loop). -/

theorem matchDate_length {l d r : List Char}
    (h : matchDate l = some (d, r)) : d.length = 10 := by
  unfold matchDate at h
  split at h
  · split at h
    · simp only [Option.some.injEq, Prod.mk.injEq] at h
      rw [← h.1]
      rfl
    · exact Option.noConfusion h
  · exact Option.noConfusion h

theorem matchDates_length {l d1 d2 : List Char}
    (h : matchDates l = some (d1, d2)) : d2.length = 10 := by
  unfold matchDates at h
  split at h
  · split at h
    · split at h
      · split at h
        · rename_i hmd
          simp only [Option.some.injEq, Prod.mk.injEq] at h
          rw [← h.2]
          exact matchDate_length hmd
        · exact Option.noConfusion h
      · exact Option.noConfusion h
    · exact Option.noConfusion h
  · exact Option.noConfusion h

theorem matchAfterNameBody_length {l cid d1 d2 : List Char}
    (h : matchAfterNameBody l = some (cid, d1, d2)) : d2.length = 10 := by
  unfold matchAfterNameBody at h
  split at h
  · exact Option.noConfusion h
  · split at h
    · split at h
      · split at h
        · rename_i hmd
          simp only [Option.some.injEq, Prod.mk.injEq] at h
          rw [← h.2.2]
          exact (matchDates_length hmd)
        · exact Option.noConfusion h
      · exact Option.noConfusion h
    · exact Option.noConfusion h

theorem matchAfterName_length {l cid d1 d2 : List Char}
    (h : matchAfterName l = some (cid, d1, d2)) : d2.length = 10 := by
  match l with
  | [] => exact Option.noConfusion h
  | [a] => exact Option.noConfusion h
  | [a, b] => exact Option.noConfusion h
  | a :: b :: s :: rest =>
    rw [matchAfterName_cons3] at h
    split at h
    · exact matchAfterNameBody_length h
    · exact Option.noConfusion h

theorem reMatchAux_length {l acc name cid d1 d2 : List Char}
    (h : reMatchAux acc l = some (name, cid, d1, d2)) : d2.length = 10 := by
  induction l generalizing acc with
  | nil => exact Option.noConfusion h
  | cons c cs ih =>
    rw [reMatchAux_step] at h
    split at h
    · exact Option.noConfusion h
    · split at h
      · rename_i cid2 d12 d22 hma
        simp only [Option.some.injEq, Prod.mk.injEq] at h
        rw [← h.2.2.2]
        exact matchAfterName_length hma
      · exact ih h

theorem parse_line_item_week_length {s : String} {p : Parsed}
    (h : parse_line_item s = .ok (some p)) :
    p.vectorWeekEnding.length = 10 := by
  unfold parse_line_item at h
  split at h
  · simp at h
  · rename_i name cid d1 d2 hre
    split at h
    · exact Except.noConfusion h
    · rename_i t ts hsplit
      simp only [Except.ok.injEq, Option.some.injEq] at h
      rw [← h]
      exact reMatchAux_length (show reMatchAux [] s.data = _ from hre)

theorem processRow_week_ne_empty {r : InvoiceRow} {rr : RRow}
    (h : processRow r = .ok rr) : rr.vectorWeekEnding ≠ some "" := by
  unfold processRow at h
  split at h
  · exact Except.noConfusion h
  · rename_i p hp
    simp only [Except.ok.injEq] at h
    cases p with
    | none =>
      rw [← h]
      simp
    | some parsed =>
      rw [← h]
      simp only [Option.map_some', ne_eq, Option.some.injEq]
      intro he
      have hlen := parse_line_item_week_length hp
      rw [he] at hlen
      exact absurd hlen (by decide)

theorem processRows_week_ne_empty {rows : List InvoiceRow}
    {prows : List RRow} (h : processRows rows = .ok prows) :
    ∀ x ∈ prows, x.vectorWeekEnding ≠ some "" := by
  induction rows generalizing prows with
  | nil =>
    unfold processRows at h
    simp only [Except.ok.injEq] at h
    rw [← h]
    intro x hx
    exact absurd hx (by simp)
  | cons r rs ih =>
    unfold processRows at h
    split at h
    · exact Except.noConfusion h
    · rename_i p hp
      split at h
      · exact Except.noConfusion h
      · rename_i ps hps
        simp only [Except.ok.injEq] at h
        rw [← h]
        intro x hx
        rcases List.mem_cons.mp hx with rfl | hx2
        · exact processRow_week_ne_empty hp
        · exact ih hps x hx2

/-! Grouping lemmas for the blank-separator loop. -/

theorem bodyRowsAux_cons (s : Option String) (r : RRow) (rs : List RRow) :
    bodyRowsAux s (r :: rs) =
      (if pyTruthy s && (r.vectorWeekEnding ≠ s) then [blankRow] else []) ++
        (toCells r :: bodyRowsAux r.vectorWeekEnding rs) := rfl

theorem groupRuns_cons_eq (r : RRow) (l : List RRow) :
    groupRuns (r :: l) =
      match groupRuns l with
      | (b :: g) :: gs =>
        if b.vectorWeekEnding = r.vectorWeekEnding then (r :: b :: g) :: gs
        else [r] :: (b :: g) :: gs
      | gs => [r] :: gs := rfl

theorem groupRuns_cons (r : RRow) (l : List RRow) :
    ∃ g gs, groupRuns (r :: l) = (r :: g) :: gs := by
  rw [groupRuns_cons_eq]
  cases hG : groupRuns l with
  | nil => exact ⟨[], [], rfl⟩
  | cons g0 gs =>
    cases g0 with
    | nil => exact ⟨[], [] :: gs, rfl⟩
    | cons b g =>
      by_cases hb : b.vectorWeekEnding = r.vectorWeekEnding
      · refine ⟨b :: g, gs, ?_⟩
        simp [hb]
      · refine ⟨[], (b :: g) :: gs, ?_⟩
        simp [hb]

theorem interBlanks_cons (r : RRow) (g : List RRow)
    (gs : List (List RRow)) :
    interBlanks ((r :: g) :: gs) = toCells r :: interBlanks (g :: gs) := by
  cases gs with
  | nil =>
    cases g with
    | nil => rfl
    | cons b g2 => rfl
  | cons g2 gs2 =>
    cases g with
    | nil => rfl
    | cons b g3 => rfl

/-- The loop of lines 90–97 on a sorted, empty-string-free row list
equals the group rendering: one blank row exactly at each group change.
`s` is the incoming `prev_week`, which is either the initial `None` or
the (never-empty) week of the preceding row. -/
theorem bodyRowsAux_groups (l : List RRow) (r : RRow) (s : Option String)
    (hsort : List.Pairwise
      (fun a b : RRow =>
        weekLe a.vectorWeekEnding b.vectorWeekEnding = true) (r :: l))
    (hne : ∀ x ∈ r :: l, x.vectorWeekEnding ≠ some "") :
    bodyRowsAux s (r :: l) =
      (if pyTruthy s && (r.vectorWeekEnding ≠ s) then [blankRow] else []) ++
        interBlanks (groupRuns (r :: l)) := by
  induction l generalizing r s with
  | nil => simp [bodyRowsAux_cons, bodyRowsAux, groupRuns, interBlanks]
  | cons b l ih =>
    have hpc := List.pairwise_cons.mp hsort
    have hrb : weekLe r.vectorWeekEnding b.vectorWeekEnding = true :=
      hpc.1 b (by simp)
    have ihx := ih b r.vectorWeekEnding hpc.2
      (fun x hx => hne x (List.mem_cons_of_mem r hx))
    obtain ⟨g, gs, hG⟩ := groupRuns_cons b l
    by_cases hbr : b.vectorWeekEnding = r.vectorWeekEnding
    · have hGr : groupRuns (r :: b :: l) = (r :: b :: g) :: gs := by
        rw [groupRuns_cons_eq, hG]
        simp [hbr]
      rw [bodyRowsAux_cons, ihx, hG, hGr]
      simp [hbr, interBlanks_cons]
    · have hGr : groupRuns (r :: b :: l) = [r] :: (b :: g) :: gs := by
        rw [groupRuns_cons_eq, hG]
        simp [hbr]
      have htr : pyTruthy r.vectorWeekEnding = true := by
        cases hr : r.vectorWeekEnding with
        | none =>
          rw [hr] at hrb
          cases hb2 : b.vectorWeekEnding with
          | none =>
            rw [hb2, hr] at hbr
            exact absurd rfl hbr
          | some t =>
            rw [hb2] at hrb
            exact Bool.noConfusion hrb
        | some str =>
          have hstr : str ≠ "" := by
            intro he
            exact hne r (by simp) (by rw [hr, he])
          simp [pyTruthy, hstr]
      rw [bodyRowsAux_cons, ihx, hG, hGr]
      simp [interBlanks, htr, hbr]

/-- C7: for every processed row set, the formatted body of the sorted
rows is exactly the group rendering: data rows in sorted order with one
fully blank row immediately before the first row of each new
`vectorWeekEnding` group and no other blank rows — none before the first
group, none trailing, grouping on the raw value with nulls forming their
own (never separated) group. -/
theorem C7_blank_separators (rows : List InvoiceRow) (prows : List RRow)
    (h : processRows rows = .ok prows) :
    bodyRows (sortRows prows) = interBlanks (groupRuns (sortRows prows)) := by
  cases hS : sortRows prows with
  | nil => rfl
  | cons r l =>
    have hsort := sortRows_pairwise prows
    rw [hS] at hsort
    have hne : ∀ x ∈ r :: l, x.vectorWeekEnding ≠ some "" := by
      intro x hx
      exact processRows_week_ne_empty h x (mem_sortRows x prows (hS ▸ hx))
    have hmain := bodyRowsAux_groups l r none hsort hne
    simpa [bodyRows, pyTruthy] using hmain

/-- Witness for C7: three rows with week endings 2024-01-07, 2024-01-07,
2024-01-14 — the body is the group rendering and holds exactly one blank
row, located between index 1 and index 2. -/
theorem C7_blank_separators_witness :
    bodyRows (sortRows prowsGroupW) =
      interBlanks (groupRuns (sortRows prowsGroupW)) ∧
    (bodyRows (sortRows prowsGroupW)).length = 4 ∧
    (bodyRows (sortRows prowsGroupW)).get? 2 = some blankRow ∧
    (bodyRows (sortRows prowsGroupW)).count blankRow = 1 :=
  ⟨C7_blank_separators rowsGroupW prowsGroupW (by decide), by decide,
    by decide, by decide⟩

/-- Witness for C8: the concrete three-row run (two parseable rows out of
order, one unparseable) produces rows sorted with the null week ending
last. -/
theorem C8_success_rows_sorted_witness :
    List.Pairwise
      (fun a b : RRow =>
        weekLe a.vectorWeekEnding b.vectorWeekEnding = true)
      sdSortW.rows ∧
    List.Pairwise
      (fun a b : RRow =>
        a.vectorWeekEnding = none → b.vectorWeekEnding = none)
      sdSortW.rows :=
  C8_success_rows_sorted rowsSortW paySortW sdSortW (by decide)

/-! Column-width lemmas. -/

theorem foldl_max_cells (l : List Cell) (a : Nat) :
    l.foldl (fun x c => max x (cellEffLen c)) a =
      max a ((l.map cellEffLen).foldr max 0) := by
  induction l generalizing a with
  | nil => simp
  | cons x xs ih =>
    simp only [List.foldl_cons, List.map_cons, List.foldr_cons, ih,
      Nat.max_assoc]

/-- The width the auto-size loop stores for a column equals
`min(max effective length + 2, 40)`: the padding is added before the 40
cap. -/
theorem colWidth_eq (cells : List Cell) :
    colWidth cells = min (specMaxLen cells + 2) 40 := by
  unfold colWidth specMaxLen
  rw [foldl_max_cells]
  simp

/-- C9 (amended): for every success document and every column, the
column's display width is `min(L + 2, 40)` where `L` is the length of the
longest stringified value in the column (falsy cells counting 0,
summary and header cells included): the fixed padding of 2 is added
*before* the 40 cap, so no width ever exceeds 40. -/
theorem C9_column_widths (d : SuccessData) :
    sheetWidths (buildSheet d) =
      (List.range (numCols (buildSheet d))).map
        (fun k => min (specMaxLen (colCells (buildSheet d) k) + 2) 40) := by
  unfold sheetWidths
  simp only [colWidth_eq]

/-- Counterexample for C9 as frozen: in the document produced for a row
whose first name is 40 characters long, the first column's longest value
has length 40, so the claimed formula `min(L, 40) + padding` gives 42
(the padding is pinned to 2 by the second column, whose longest value has
length 10 and whose width is 12) while the program sets width 40 — the
cap is applied after the padding, not before. -/
theorem C9_counterexample :
    reconcile rowsWide payWide = .success sdWide ∧
    sheetWidths (buildSheet sdWide) ≠
      (List.range (numCols (buildSheet sdWide))).map
        (fun k =>
          min (specMaxLen (colCells (buildSheet sdWide) k)) 40 + 2) ∧
    (sheetWidths (buildSheet sdWide)).get? 0 = some 40 ∧
    specMaxLen (colCells (buildSheet sdWide) 0) = 40 ∧
    min (specMaxLen (colCells (buildSheet sdWide) 0)) 40 + 2 = 42 ∧
    (sheetWidths (buildSheet sdWide)).get? 1 = some 12 ∧
    specMaxLen (colCells (buildSheet sdWide) 1) = 10 := by decide

/-- Counterexample for C1 as frozen: with no invoice rows and the entered
amount "0" (which parses, and whose rounded value equals the rounded
empty sum 0), the run does not proceed past the amount check — it fails
earlier with the no-matching-rows failure — so the claimed equivalence
fails for row sets with no date matches. -/
theorem C1_counterexample :
    pyFloat payZero.amount = some (.finite 0) ∧
    pyRound2 (sumExtended (matchingRows [] payZero.date)) = pyRound2 0 ∧
    reconcile [] payZero = .failure .noMatchingRows ∧
    passedAmountCheck (reconcile [] payZero) = false := by decide

/-- Witness for C1: rows summing to 1000.00 against the entered amount
"999.99" produce the amount-mismatch failure carrying the sum 1000 and
the entered value 999.99. -/
theorem C1_amount_check_witness :
    reconcile rows1000 payMismatch =
      .failure (.amountMismatch 1000 (.finite (mkRat 99999 100))) := by
  have h :=
    (C1_amount_check rows1000 payMismatch (mkRat 99999 100) (by decide)
      (by decide)).2 (by decide)
  rw [h]
  decide

end Reconciliation
